import Mathlib

/-!
Verification of the marketplace-watcher script (`scripts/watch_marketplaces.py`).

The script is embedded shallowly:

* Python `str` values are modelled as `List Char` (one entry per code point,
  matching Python's `len`/slicing semantics).
* Python dicts used as string-to-string maps (`last_hash.json`, and the
  directory of per-slug state files) are modelled as association lists with
  insert-or-replace update (`lookupA` / `insertA`).
* External effects are oracles passed in as function arguments: the network
  result of each fetch attempt, the reader-service result, the `difflib.ndiff`
  engine, the `unicodedata.normalize("NFKD", ·)` folding, and the SHA-256
  digest function.  The control flow around those calls is translated from the
  source line by line.
* Exceptions are modelled with `Except`.
-/

/-- Python slice `l[:i]` for a possibly negative bound `i`:
a negative bound counts from the end and clamps at 0. -/
def pySliceTo (i : Int) (l : List Char) : List Char :=
  if i < 0 then l.take (l.length - i.natAbs) else l.take i.toNat

/-- Whitespace characters stripped by Python's `str.strip()` (ASCII part). -/
def isPySpace (c : Char) : Bool :=
  c == ' ' || c == '\t' || c == '\n' || c == '\r' || c == '\x0b' || c == '\x0c'

/-- Strip characters satisfying `p` from both ends of a list,
modelling Python's `str.strip` family. -/
def stripEnds (p : Char → Bool) (l : List Char) : List Char :=
  ((l.dropWhile p).reverse.dropWhile p).reverse

/-- Python `str.strip()` (default whitespace strip). -/
def pyStrip (l : List Char) : List Char := stripEnds isPySpace l

/-- Python `str.splitlines()` restricted to `'\n'` boundaries: the final
newline does not open an extra empty line, and the empty string has no lines. -/
def pySplitlines : List Char → List (List Char)
  | [] => []
  | c :: rest =>
    if c = '\n' then [] :: pySplitlines rest
    else
      match pySplitlines rest with
      | [] => [[c]]
      | line :: more => (c :: line) :: more

/-- Python `"\n".join(out)`. -/
def joinNL : List (List Char) → List Char
  | [] => []
  | [l] => l
  | l :: ls => l ++ '\n' :: joinNL ls

/-- Python `"\n\n".join(blocks)` (the digest block separator in `main`). -/
def joinBlocks : List (List Char) → List Char
  | [] => []
  | [b] => b
  | b :: bs => b ++ '\n' :: '\n' :: joinBlocks bs

/-- Dict lookup (`d.get(k)`): first matching key, `none` when absent. -/
def lookupA {α : Type} : List (List Char × α) → List Char → Option α
  | [], _ => none
  | (k', v) :: rest, k => if k' = k then some v else lookupA rest k

/-- Dict update (`d[k] = v`): replace the value of an existing key in place,
otherwise append the new binding. -/
def insertA {α : Type} : List (List Char × α) → List Char → α → List (List Char × α)
  | [], k, v => [(k, v)]
  | (k', v') :: rest, k, v =>
    if k' = k then (k', v) :: rest else (k', v') :: insertA rest k v

/-- Replace every maximal run of non-ASCII-alphanumeric characters by a single
`'-'`, modelling `re.sub(r"[^a-zA-Z0-9]+", "-", s)`.  The flag records whether
the previous character was inside such a run. -/
def subRuns : Bool → List Char → List Char
  | _, [] => []
  | inRun, c :: rest =>
    if c.isAlphanum then c :: subRuns false rest
    else if inRun then subRuns true rest
    else '-' :: subRuns true rest

/-- The fallback slug returned by `slugify` when nothing survives (`s or "item"`). -/
def itemFallback : List Char := "item".toList

/-- `slugify` from the script.  The `unicodedata.normalize("NFKD", ·)` step is
an oracle argument `nfkd`; `encode("ascii","ignore")` keeps code points below
128, then non-alphanumeric runs collapse to `'-'`, dashes are stripped from the
ends, the result is lowercased, and `"item"` is the fallback for emptiness. -/
def slugify (nfkd : List Char → List Char) (s : List Char) : List Char :=
  let ascii := (nfkd s).filter fun c => decide (c.toNat < 128)
  let subbed := subRuns false ascii
  let stripped := stripEnds (fun c => c == '-') subbed
  let lowered := stripped.map Char.toLower
  if lowered = [] then itemFallback else lowered

/-- Errors raised during retrieval: an HTTP status error
(`requests.HTTPError`, carrying the response status) or any other exception;
both carry the exception class name and message used by `main`'s error block. -/
inductive FetchErr where
  | http (status : Nat) (cls msg : List Char)
  | transport (cls msg : List Char)
deriving DecidableEq

/-- The exception class name (`e.__class__.__name__`). -/
def FetchErr.clsName : FetchErr → List Char
  | .http _ c _ => c
  | .transport c _ => c

/-- The exception message (`str(e)`). -/
def FetchErr.msgText : FetchErr → List Char
  | .http _ _ m => m
  | .transport _ m => m

/-- The statuses that `fetch_page` escalates to the reader fallback:
`status in (401, 403, 429, 500, 502, 503, 504)`. -/
def blockedStatus (s : Nat) : Bool :=
  s == 401 || s == 403 || s == 429 || s == 500 || s == 502 || s == 503 || s == 504

/-- Models Python's `raise None` (`TypeError`), reachable only with a retry
budget of zero. -/
def raiseNoneErr : FetchErr :=
  .transport "TypeError".toList "exceptions must derive from BaseException".toList

section Fetch

variable (primary jina : Nat → Except FetchErr (List Char))

/-- The retry loop of `fetch_page`.  `primary k` is the outcome of the primary
client's attempt number `k` (already carried through the selector isolation and
`clean_text`), and `jina k` is the outcome of `fetch_via_jina` when invoked
during attempt `k`.  On an `HTTPError` whose status is in the blocked set, or
on any non-HTTP exception, the fallback runs at once and a success returns
immediately; otherwise the loop sleeps and retries.  When the budget is spent
the last stored error is raised. -/
def fetchAttempts : Nat → Nat → Option FetchErr → Except FetchErr (List Char)
  | _, 0, lastErr => .error (lastErr.getD raiseNoneErr)
  | attempt, fuel + 1, _ =>
    match primary attempt with
    | .ok text => .ok text
    | .error (.http status c m) =>
      if blockedStatus status then
        match jina attempt with
        | .ok t => .ok t
        | .error e2 => fetchAttempts (attempt + 1) fuel (some e2)
      else fetchAttempts (attempt + 1) fuel (some (.http status c m))
    | .error (.transport _ _) =>
      match jina attempt with
      | .ok t => .ok t
      | .error e2 => fetchAttempts (attempt + 1) fuel (some e2)

/-- `fetch_page(url, selector, retries)`: run the retry loop from attempt 0
with an empty `last_err`. -/
def fetch_page (retries : Nat) : Except FetchErr (List Char) :=
  fetchAttempts primary jina 0 retries none

end Fetch

/-- The fixed placeholder returned by `diff_preview` when no diff line
survives. -/
def placeholderText : List Char :=
  "— Изменения есть, но не попали в короткое превью (незначительные правки форматирования).".toList

/-- Transform one retained ndiff line: pick the sign marker from the `"+ "` /
`"- "` prefix, strip the payload, truncate it to `max_line_len` characters with
an ellipsis (`txt[:max_line_len - 1] + "…"`, with Python slice semantics), and
prepend `mark` and a space. -/
def diffEntry (maxLineLen : Nat) (line : List Char) : List Char :=
  let mark : Char := if line.take 2 = ['+', ' '] then '➕' else '➖'
  let txt := pyStrip (line.drop 2)
  let txt2 :=
    if maxLineLen < txt.length then pySliceTo ((maxLineLen : Int) - 1) txt ++ ['…'] else txt
  mark :: ' ' :: txt2

/-- The collection loop of `diff_preview`: walk the ndiff lines, keep those
starting with `"+ "` or `"- "`, and stop as soon as `len(out) >= max_lines`
(checked on every iteration, after any append). -/
def diffLoop (maxLines maxLineLen : Nat) : List (List Char) → List (List Char) → List (List Char)
  | [], out => out
  | line :: rest, out =>
    let out' :=
      if line.take 2 = ['+', ' '] ∨ line.take 2 = ['-', ' '] then out ++ [diffEntry maxLineLen line]
      else out
    if maxLines ≤ out'.length then out' else diffLoop maxLines maxLineLen rest out'

/-- `diff_preview(old, new, max_lines, max_line_len)`.  The `difflib.ndiff`
engine is an oracle argument `nd` operating on the two line lists; the function
collects marked lines and falls back to the fixed placeholder when none were
collected. -/
def diff_preview (nd : List (List Char) → List (List Char) → List (List Char))
    (old new : List Char) (maxLines maxLineLen : Nat) : List Char :=
  let out := diffLoop maxLines maxLineLen (nd (pySplitlines old) (pySplitlines new)) []
  if out = [] then placeholderText else joinNL out

/-- A simple diff engine in ndiff's output format: all old lines as deletions,
then all new lines as insertions.  It coincides with `difflib.ndiff` whenever
one of the two sides is empty, which is the only regime in which concrete
evaluations below depend on the engine's output. -/
def ndiffBase (o n : List (List Char)) : List (List Char) :=
  o.map (fun l => '-' :: ' ' :: l) ++ n.map (fun l => '+' :: ' ' :: l)

/-- One entry of `data/urls.json`: a JSON object whose `"name"`, `"url"` and
`"selector"` fields may each be absent. -/
structure ConfigItem where
  name : Option (List Char)
  url : Option (List Char)
  selector : Option (List Char)
deriving DecidableEq

/-- `item.get("name", "Unnamed")`. -/
def itemName (it : ConfigItem) : List Char := it.name.getD "Unnamed".toList

/-- The mutable state of one run of `main`: the fingerprint dict loaded from
`last_hash.json`, the per-slug content files under `data/state/`, and the
accumulated message blocks. -/
structure RunState where
  hashes : List (List Char × List Char)
  files : List (List Char × List Char)
  blocks : List (List Char)
deriving DecidableEq

/-- Exceptions that escape `main` (aborting the run): the only one the model
can produce is the `KeyError` from `item["url"]`, raised outside the
per-target `try`. -/
inductive RunError where
  | keyError
deriving DecidableEq

/-- The observable outcome of a completed run: the fingerprint mapping written
back to `last_hash.json`, the content files left in `data/state/`, the blocks,
and the texts passed to `tg_send` in order. -/
structure RunResult where
  savedHashes : List (List Char × List Char)
  files : List (List Char × List Char)
  blocks : List (List Char)
  messages : List (List Char)
deriving DecidableEq

/-- The per-target failure block:
`f"⚠️ <b>{name}</b>\n<i>Ошибка запроса:</i> {e.__class__.__name__}: {e}"`. -/
def errBlock (name : List Char) (e : FetchErr) : List Char :=
  "⚠️ <b>".toList ++ name ++ "</b>\n<i>Ошибка запроса:</i> ".toList
    ++ e.clsName ++ ": ".toList ++ e.msgText

/-- The per-target change block:
`f"🔄 <b>{name}</b>\n{preview}\n<i>Источник:</i> {url}"`. -/
def changeBlock (name preview url : List Char) : List Char :=
  "🔄 <b>".toList ++ name ++ "</b>\n".toList ++ preview ++ "\n<i>Источник:</i> ".toList ++ url

/-- The run header `f"🧭 Обновления комиссий/логистики (RU)\n<code>{ts}</code>\n"`. -/
def headerText (ts : List Char) : List Char :=
  "🧭 Обновления комиссий/логистики (RU)\n<code>".toList ++ ts ++ "</code>\n".toList

/-- The body of the "no changes" message. -/
def noChangesText : List Char := "Изменений нет.".toList

/-- The chunking loop with explicit fuel; `fuel` bounds the number of chunks,
and `s.length` is always enough fuel for step 4000. -/
def chunkAux (n : Nat) : Nat → List Char → List (List Char)
  | 0, _ => []
  | fuel + 1, s => if s = [] then [] else s.take n :: chunkAux n fuel (s.drop n)

/-- `for i in range(0, len(full), 4000): tg_send(full[i:i+4000])` — the digest
is sent as the successive 4000-character slices of `full`. -/
def digestChunks (s : List Char) : List (List Char) := chunkAux 4000 s.length s

section Main

variable (nd : List (List Char) → List (List Char) → List (List Char))
variable (fetch : List Char → Option (List Char) → Except FetchErr (List Char))
variable (hash : List Char → List Char)
variable (nfkd : List Char → List Char)

/-- The body of `main`'s per-target loop.  `item["url"]` raises a `KeyError`
when the field is missing — before the `try`, so it aborts the run.  A fetch
failure is caught and converted into an error block; a successful fetch leads
to the digest comparison, and on a change the content file and fingerprint
entry are overwritten and a change block is appended (the previous content is
read from the slug-keyed file before the overwrite, defaulting to `""`). -/
def processItem (st : RunState) (item : ConfigItem) : Except RunError RunState :=
  match item.url with
  | none => .error RunError.keyError
  | some url =>
    match fetch url item.selector with
    | .error e => .ok ⟨st.hashes, st.files, st.blocks ++ [errBlock (itemName item) e]⟩
    | .ok content =>
      if lookupA st.hashes url ≠ some (hash content) then
        .ok ⟨insertA st.hashes url (hash content),
             insertA st.files (slugify nfkd (itemName item)) content,
             st.blocks ++ [changeBlock (itemName item)
               (diff_preview nd ((lookupA st.files (slugify nfkd (itemName item))).getD [])
                 content 12 200) url]⟩
      else .ok st

/-- The `for item in urls` loop: sequential, aborted by an uncaught exception. -/
def mainLoop : RunState → List ConfigItem → Except RunError RunState
  | st, [] => .ok st
  | st, item :: rest =>
    match processItem nd fetch hash nfkd st item with
    | .error e => .error e
    | .ok st' => mainLoop st' rest

/-- `main()`.  An empty configuration returns immediately (nothing sent, the
mapping unchanged — the model records the unchanged mapping in `savedHashes`
although the file itself is not rewritten).  Otherwise the loop runs, the
final fingerprint dict is saved, and either the chunked digest or the single
"no changes" message is sent.  `ts` is the UTC timestamp oracle. -/
def mainRun (ts : List Char) (urls : List ConfigItem)
    (h0 f0 : List (List Char × List Char)) : Except RunError RunResult :=
  if urls = [] then .ok ⟨h0, f0, [], []⟩
  else
    match mainLoop nd fetch hash nfkd ⟨h0, f0, []⟩ urls with
    | .error e => .error e
    | .ok st =>
      .ok ⟨st.hashes, st.files, st.blocks,
           if st.blocks = [] then [headerText ts ++ noChangesText]
           else digestChunks (headerText ts ++ joinBlocks st.blocks)⟩

end Main

/-- Internal split positions of a chunk list: the cumulative lengths of all
chunks except the last. -/
def cuts : List (List Char) → List Nat
  | [] => []
  | [_] => []
  | c :: cs => c.length :: (cuts cs).map (c.length + ·)

/-- The spans `[start, stop)` occupied by each digest block inside
`header + "\n\n".join(blocks)`, given the header length and the block lengths
(consecutive blocks are two separator characters apart). -/
def blockSpans : Nat → List Nat → List (Nat × Nat)
  | _, [] => []
  | start, b :: bs => (start, start + b) :: blockSpans (start + b + 2) bs

/-- Position `p` falls strictly inside one of the per-target blocks. -/
def midBlockCut (hlen : Nat) (blockLens : List Nat) (p : Nat) : Prop :=
  ∃ s ∈ blockSpans hlen blockLens, s.1 < p ∧ p < s.2

/-! ## Library lemmas about the helpers -/

theorem lookupA_insertA_self {α : Type} (m : List (List Char × α)) (k : List Char) (v : α) :
    lookupA (insertA m k v) k = some v := by
  induction m with
  | nil => simp [insertA, lookupA]
  | cons hd tl ih =>
    obtain ⟨k', v'⟩ := hd
    by_cases h : k' = k
    · simp [insertA, h, lookupA]
    · simp [insertA, h, lookupA, ih]

theorem lookupA_insertA_ne {α : Type} (m : List (List Char × α)) (k q : List Char) (v : α)
    (h : q ≠ k) : lookupA (insertA m k v) q = lookupA m q := by
  induction m with
  | nil => simp [insertA, lookupA, Ne.symm h]
  | cons hd tl ih =>
    obtain ⟨k', v'⟩ := hd
    by_cases hk : k' = k
    · subst hk
      simp [insertA, lookupA, Ne.symm h]
    · by_cases hq : k' = q <;> simp [insertA, hk, lookupA, hq, ih, h]

theorem stripEnds_sublist (p : Char → Bool) (l : List Char) :
    List.Sublist (stripEnds p l) l := by
  have h2 : List.Sublist ((l.dropWhile p).reverse.dropWhile p).reverse
      (l.dropWhile p).reverse.reverse :=
    (List.dropWhile_sublist p).reverse
  rw [List.reverse_reverse] at h2
  exact h2.trans (List.dropWhile_sublist p)

theorem pyStrip_sublist (l : List Char) : List.Sublist (pyStrip l) l := stripEnds_sublist _ l

theorem pySplitlines_append (line t : List Char) (h : '\n' ∉ line) :
    pySplitlines (line ++ '\n' :: t) = line :: pySplitlines t := by
  induction line with
  | nil => simp [pySplitlines]
  | cons c cs ih =>
    have hc : ¬ c = '\n' := by
      intro hh
      exact h (hh ▸ List.mem_cons_self c cs)
    have hcs : '\n' ∉ cs := fun hh => h (List.mem_cons_of_mem c hh)
    simp [pySplitlines, hc, ih hcs]

theorem pySplitlines_single (line : List Char) (h : '\n' ∉ line) (hne : line ≠ []) :
    pySplitlines line = [line] := by
  induction line with
  | nil => exact absurd rfl hne
  | cons c cs ih =>
    have hc : ¬ c = '\n' := by
      intro hh
      exact h (hh ▸ List.mem_cons_self c cs)
    have hcs : '\n' ∉ cs := fun hh => h (List.mem_cons_of_mem c hh)
    by_cases h0 : cs = []
    · subst h0
      simp [pySplitlines, hc]
    · simp [pySplitlines, hc, ih hcs h0]

theorem pySplitlines_joinNL (out : List (List Char))
    (h : ∀ l ∈ out, '\n' ∉ l ∧ l ≠ []) (hne : out ≠ []) :
    pySplitlines (joinNL out) = out := by
  induction out with
  | nil => exact absurd rfl hne
  | cons l ls ih =>
    cases ls with
    | nil =>
      have hl := h l (List.mem_cons_self l [])
      simpa [joinNL] using pySplitlines_single l hl.1 hl.2
    | cons l2 ls2 =>
      have hl := h l (List.mem_cons_self l _)
      have step : joinNL (l :: l2 :: ls2) = l ++ '\n' :: joinNL (l2 :: ls2) := rfl
      rw [step, pySplitlines_append l _ hl.1,
        ih (fun x hx => h x (List.mem_cons_of_mem l hx)) (by simp)]

theorem joinNL_ne_nil (out : List (List Char)) (h : ∀ l ∈ out, l ≠ []) (hne : out ≠ []) :
    joinNL out ≠ [] := by
  cases out with
  | nil => exact absurd rfl hne
  | cons l ls =>
    cases ls with
    | nil => simpa [joinNL] using h l (List.mem_cons_self l [])
    | cons l2 ls2 => simp [joinNL]

theorem chunkAux_nil (n : Nat) (fuel : Nat) : chunkAux n fuel [] = [] := by
  cases fuel <;> simp [chunkAux]

theorem chunkAux_fuel (n : Nat) (hn : 0 < n) :
    ∀ f1 f2 (s : List Char), s.length ≤ f1 → s.length ≤ f2 →
      chunkAux n f1 s = chunkAux n f2 s := by
  intro f1
  induction f1 with
  | zero =>
    intro f2 s h1 _
    have : s = [] := List.length_eq_zero.1 (Nat.le_zero.1 h1)
    subst this
    rw [chunkAux_nil, chunkAux_nil]
  | succ f ih =>
    intro f2 s h1 h2
    cases f2 with
    | zero =>
      have : s = [] := List.length_eq_zero.1 (Nat.le_zero.1 h2)
      subst this
      rw [chunkAux_nil, chunkAux_nil]
    | succ f2' =>
      by_cases hs : s = []
      · subst hs; rw [chunkAux_nil, chunkAux_nil]
      · have hlen : 0 < s.length := List.length_pos.2 hs
        have hd : (s.drop n).length ≤ f := by
          rw [List.length_drop]; omega
        have hd2 : (s.drop n).length ≤ f2' := by
          rw [List.length_drop]; omega
        simp only [chunkAux, hs, if_false]
        rw [ih f2' (s.drop n) hd hd2]

theorem digestChunks_cons (s : List Char) (h : s ≠ []) :
    digestChunks s = s.take 4000 :: digestChunks (s.drop 4000) := by
  have hlen : 0 < s.length := List.length_pos.2 h
  unfold digestChunks
  cases hs : s.length with
  | zero => omega
  | succ k =>
    simp only [chunkAux, h, if_false]
    refine congrArg _ (chunkAux_fuel 4000 (by omega) k (s.drop 4000).length _ ?_ le_rfl)
    rw [List.length_drop]; omega

theorem chunkAux_join (fuel : Nat) :
    ∀ s : List Char, s.length ≤ fuel → (chunkAux 4000 fuel s).flatten = s := by
  induction fuel with
  | zero =>
    intro s h1
    have : s = [] := List.length_eq_zero.1 (Nat.le_zero.1 h1)
    subst this; rfl
  | succ f ih =>
    intro s h1
    by_cases hs : s = []
    · subst hs; rfl
    · have hlen : 0 < s.length := List.length_pos.2 hs
      have hd : (s.drop 4000).length ≤ f := by
        rw [List.length_drop]; omega
      simp only [chunkAux, hs, if_false, List.flatten_cons]
      rw [ih (s.drop 4000) hd, List.take_append_drop]

theorem chunkAux_mem_length (fuel : Nat) :
    ∀ (s : List Char) c, c ∈ chunkAux 4000 fuel s → c.length ≤ 4000 := by
  induction fuel with
  | zero => intro s c h; simp [chunkAux] at h
  | succ f ih =>
    intro s c h
    by_cases hs : s = []
    · subst hs; simp [chunkAux] at h
    · simp only [chunkAux, hs, if_false, List.mem_cons] at h
      rcases h with rfl | h
      · rw [List.length_take]; omega
      · exact ih _ c h

theorem cuts_chunkAux_mod (fuel : Nat) :
    ∀ (s : List Char) p, p ∈ cuts (chunkAux 4000 fuel s) → p % 4000 = 0 := by
  induction fuel with
  | zero => intro s p h; simp [chunkAux, cuts] at h
  | succ f ih =>
    intro s p h
    by_cases hs : s = []
    · subst hs; simp [chunkAux, cuts] at h
    · simp only [chunkAux, hs, if_false] at h
      cases hr : chunkAux 4000 f (s.drop 4000) with
      | nil => rw [hr] at h; simp [cuts] at h
      | cons c2 cs =>
        rw [hr] at h
        have hdrop : s.drop 4000 ≠ [] := by
          intro hd
          rw [hd, chunkAux_nil] at hr
          exact List.noConfusion hr
        have hbig : 4000 < s.length := by
          by_contra hle
          exact hdrop (List.drop_eq_nil_of_le (by omega))
        have htake : (s.take 4000).length = 4000 := by
          rw [List.length_take]; omega
        simp only [cuts, htake, List.mem_cons, List.mem_map] at h
        rcases h with rfl | ⟨q, hq, rfl⟩
        · omega
        · have := ih (s.drop 4000) q (by rw [hr]; exact hq)
          omega

theorem diffEntry_ne_nil (maxLineLen : Nat) (line : List Char) :
    diffEntry maxLineLen line ≠ [] := by
  simp [diffEntry]

theorem diffEntry_spec (maxLineLen : Nat) (line : List Char)
    (h1 : 1 ≤ maxLineLen) (h2 : '\n' ∉ line) :
    diffEntry maxLineLen line ≠ [] ∧ '\n' ∉ diffEntry maxLineLen line ∧
      (diffEntry maxLineLen line).length ≤ maxLineLen + 2 := by
  have hmark : ∀ b : Bool, (if b = true then '➕' else '➖') ≠ '\n' := by decide
  have htxt : '\n' ∉ pyStrip (line.drop 2) := by
    intro hmem
    exact h2 ((List.drop_sublist 2 line).subset ((pyStrip_sublist _).subset hmem))
  constructor
  · exact diffEntry_ne_nil maxLineLen line
  refine ⟨?_, ?_⟩
  · simp only [diffEntry, List.mem_cons]
    rintro (heq | heq | hmem)
    · split at heq <;> simp at heq
    · simp at heq
    · split at hmem
      · rcases List.mem_append.1 hmem with hmem' | hmem'
        · have : '\n' ∈ pyStrip (line.drop 2) := by
            unfold pySliceTo at hmem'
            split at hmem' <;> exact List.mem_of_mem_take hmem'
          exact htxt this
        · simp at hmem'
      · exact htxt hmem
  · simp only [diffEntry, List.length_cons]
    split
    · rename_i hgt
      have hslice : (pySliceTo ((maxLineLen : Int) - 1) (pyStrip (line.drop 2))).length
          ≤ maxLineLen - 1 := by
        unfold pySliceTo
        split
        · omega
        · rw [List.length_take]
          have : ((maxLineLen : Int) - 1).toNat = maxLineLen - 1 := by omega
          rw [this]
          omega
      rw [List.length_append]
      simp only [List.length_singleton]
      omega
    · rename_i hle
      omega

theorem diffLoop_pred (maxLines maxLineLen : Nat) (P : List Char → Prop) :
    ∀ (d out : List (List Char)),
      (∀ line ∈ d, P (diffEntry maxLineLen line)) → (∀ l ∈ out, P l) →
      ∀ l ∈ diffLoop maxLines maxLineLen d out, P l := by
  intro d
  induction d with
  | nil =>
    intro out _ hout
    simpa [diffLoop] using hout
  | cons line rest ih =>
    intro out hd hout
    have hrest : ∀ x ∈ rest, P (diffEntry maxLineLen x) :=
      fun x hx => hd x (List.mem_cons_of_mem line hx)
    intro l hl
    simp only [diffLoop] at hl
    by_cases hc : line.take 2 = ['+', ' '] ∨ line.take 2 = ['-', ' ']
    · rw [if_pos hc] at hl
      have hout2 : ∀ x ∈ out ++ [diffEntry maxLineLen line], P x := by
        intro x hx
        rcases List.mem_append.1 hx with h | h
        · exact hout x h
        · rw [List.mem_singleton.1 h]
          exact hd line (List.mem_cons_self line rest)
      split at hl
      · exact hout2 l hl
      · exact ih _ hrest hout2 l hl
    · rw [if_neg hc] at hl
      split at hl
      · exact hout l hl
      · exact ih _ hrest hout l hl

theorem diffLoop_length (maxLines maxLineLen : Nat) :
    ∀ (d out : List (List Char)),
      (diffLoop maxLines maxLineLen d out).length ≤ max maxLines (out.length + 1) := by
  intro d
  induction d with
  | nil =>
    intro out
    simp only [diffLoop]
    exact le_trans (Nat.le_succ _) (le_max_right _ _)
  | cons line rest ih =>
    intro out
    simp only [diffLoop]
    by_cases hc : line.take 2 = ['+', ' '] ∨ line.take 2 = ['-', ' ']
    · rw [if_pos hc]
      split
      · exact le_trans (by simp) (le_max_right maxLines (out.length + 1))
      · rename_i hgo
        refine le_trans ?_ (le_max_left maxLines (out.length + 1))
        have h2 := ih (out ++ [diffEntry maxLineLen line])
        rw [max_eq_left (by simp at hgo ⊢; omega)] at h2
        exact h2
    · rw [if_neg hc]
      split
      · exact le_trans (Nat.le_succ _) (le_max_right maxLines (out.length + 1))
      · rename_i hgo
        refine le_trans ?_ (le_max_left maxLines (out.length + 1))
        have h2 := ih out
        rw [max_eq_left (by omega)] at h2
        exact h2

/-- What determines the error finally raised by the retry loop, in terms of the
last attempt `k`: the primary attempt must have failed there; for a
blocked-status or non-HTTP failure the raised error is the fallback's error of
that attempt, for a non-blocked HTTP failure it is that HTTP error itself. -/
def lastAttemptSpec (primary jina : Nat → Except FetchErr (List Char)) (k : Nat)
    (e : FetchErr) : Prop :=
  match primary k with
  | .ok _ => False
  | .error (.http s c m) =>
    if blockedStatus s then jina k = .error e else e = .http s c m
  | .error (.transport _ _) => jina k = .error e

theorem fetchAttempts_eq_ok (primary jina : Nat → Except FetchErr (List Char))
    (attempt f : Nat) (le : Option FetchErr) (t : List Char)
    (h : primary attempt = .ok t) :
    fetchAttempts primary jina attempt (f + 1) le = .ok t := by
  simp [fetchAttempts, h]

theorem fetchAttempts_eq_blocked_ok (primary jina : Nat → Except FetchErr (List Char))
    (attempt f : Nat) (le : Option FetchErr) (s : Nat) (c m t : List Char)
    (h : primary attempt = .error (.http s c m)) (hb : blockedStatus s = true)
    (hj : jina attempt = .ok t) :
    fetchAttempts primary jina attempt (f + 1) le = .ok t := by
  simp [fetchAttempts, h, hb, hj]

theorem fetchAttempts_eq_blocked_err (primary jina : Nat → Except FetchErr (List Char))
    (attempt f : Nat) (le : Option FetchErr) (s : Nat) (c m : List Char) (e2 : FetchErr)
    (h : primary attempt = .error (.http s c m)) (hb : blockedStatus s = true)
    (hj : jina attempt = .error e2) :
    fetchAttempts primary jina attempt (f + 1) le =
      fetchAttempts primary jina (attempt + 1) f (some e2) := by
  simp [fetchAttempts, h, hb, hj]

theorem fetchAttempts_eq_unblocked (primary jina : Nat → Except FetchErr (List Char))
    (attempt f : Nat) (le : Option FetchErr) (s : Nat) (c m : List Char)
    (h : primary attempt = .error (.http s c m)) (hb : blockedStatus s = false) :
    fetchAttempts primary jina attempt (f + 1) le =
      fetchAttempts primary jina (attempt + 1) f (some (.http s c m)) := by
  simp [fetchAttempts, h, hb]

theorem fetchAttempts_eq_transport_ok (primary jina : Nat → Except FetchErr (List Char))
    (attempt f : Nat) (le : Option FetchErr) (c m t : List Char)
    (h : primary attempt = .error (.transport c m)) (hj : jina attempt = .ok t) :
    fetchAttempts primary jina attempt (f + 1) le = .ok t := by
  simp [fetchAttempts, h, hj]

theorem fetchAttempts_eq_transport_err (primary jina : Nat → Except FetchErr (List Char))
    (attempt f : Nat) (le : Option FetchErr) (c m : List Char) (e2 : FetchErr)
    (h : primary attempt = .error (.transport c m)) (hj : jina attempt = .error e2) :
    fetchAttempts primary jina attempt (f + 1) le =
      fetchAttempts primary jina (attempt + 1) f (some e2) := by
  simp [fetchAttempts, h, hj]

theorem fetchAttempts_zero (primary jina : Nat → Except FetchErr (List Char))
    (attempt : Nat) (e : FetchErr) :
    fetchAttempts primary jina attempt 0 (some e) = .error e := rfl

theorem fetchAttempts_error_spec (primary jina : Nat → Except FetchErr (List Char)) :
    ∀ (fuel attempt : Nat) (le : Option FetchErr) (e : FetchErr), 0 < fuel →
      fetchAttempts primary jina attempt fuel le = .error e →
      (∀ k, k < fuel → ∃ err, primary (attempt + k) = .error err) ∧
        lastAttemptSpec primary jina (attempt + fuel - 1) e := by
  intro fuel
  induction fuel with
  | zero => omega
  | succ f ih =>
    intro attempt le e _ hres
    have hcont : ∀ e2 : FetchErr, (∃ err, primary attempt = .error err) →
        fetchAttempts primary jina (attempt + 1) f (some e2) = .error e →
        (f = 0 → e = e2) →
        (∀ k, k < f + 1 → ∃ err, primary (attempt + k) = .error err) ∧
          ((0 < f → lastAttemptSpec primary jina (attempt + f) e) →
            (f = 0 → lastAttemptSpec primary jina attempt e) →
            lastAttemptSpec primary jina (attempt + (f + 1) - 1) e) := by
      intro e2 hperr hrec hzero
      cases hf : f with
      | zero =>
        subst hf
        refine ⟨?_, fun _ h0 => by simpa using h0 rfl⟩
        intro k hk
        have : k = 0 := by omega
        subst this
        simpa using hperr
      | succ f' =>
        subst hf
        have hrest := ih (attempt + 1) (some e2) e (by omega) hrec
        refine ⟨?_, fun hpos _ => ?_⟩
        · intro k hk
          cases k with
          | zero => simpa using hperr
          | succ k' =>
            obtain ⟨err', herr'⟩ := hrest.1 k' (by omega)
            exact ⟨err', by rw [← herr']; ring_nf⟩
        · have heq : attempt + (f' + 1 + 1) - 1 = attempt + (f' + 1) := by omega
          rw [heq]
          exact hpos (by omega)
    cases hp : primary attempt with
    | ok t =>
      rw [fetchAttempts_eq_ok primary jina attempt f le t hp] at hres
      exact Except.noConfusion hres
    | error err =>
      cases err with
      | http s c m =>
        cases hb : blockedStatus s with
        | true =>
          cases hj : jina attempt with
          | ok t =>
            rw [fetchAttempts_eq_blocked_ok primary jina attempt f le s c m t hp hb hj] at hres
            exact Except.noConfusion hres
          | error e2 =>
            rw [fetchAttempts_eq_blocked_err primary jina attempt f le s c m e2 hp hb hj] at hres
            have hspec0 : e = e2 → lastAttemptSpec primary jina attempt e := by
              intro hee
              simp only [lastAttemptSpec, hp, hb, if_true]
              rw [hj, hee]
            obtain ⟨hall, hlast⟩ := hcont e2 ⟨_, hp⟩ hres
              (fun hf0 => by
                subst hf0
                rw [fetchAttempts_zero] at hres
                exact (Except.error.injEq _ _ ▸ hres).symm)
            refine ⟨hall, hlast ?_ ?_⟩
            · intro hfpos
              obtain ⟨_, hl⟩ := ih (attempt + 1) (some e2) e hfpos hres
              have heq : attempt + 1 + f - 1 = attempt + f := by omega
              rwa [heq] at hl
            · intro hf0
              subst hf0
              rw [fetchAttempts_zero] at hres
              exact hspec0 (Except.error.injEq _ _ ▸ hres).symm
        | false =>
          rw [fetchAttempts_eq_unblocked primary jina attempt f le s c m hp hb] at hres
          obtain ⟨hall, hlast⟩ := hcont (.http s c m) ⟨_, hp⟩ hres
            (fun hf0 => by
              subst hf0
              rw [fetchAttempts_zero] at hres
              exact (Except.error.injEq _ _ ▸ hres).symm)
          refine ⟨hall, hlast ?_ ?_⟩
          · intro hfpos
            obtain ⟨_, hl⟩ := ih (attempt + 1) (some (.http s c m)) e hfpos hres
            have heq : attempt + 1 + f - 1 = attempt + f := by omega
            rwa [heq] at hl
          · intro hf0
            subst hf0
            rw [fetchAttempts_zero] at hres
            have hee : e = FetchErr.http s c m := (Except.error.injEq _ _ ▸ hres).symm
            simp only [lastAttemptSpec, hp, hb, Bool.false_eq_true, if_false]
            exact hee
      | transport c m =>
        cases hj : jina attempt with
        | ok t =>
          rw [fetchAttempts_eq_transport_ok primary jina attempt f le c m t hp hj] at hres
          exact Except.noConfusion hres
        | error e2 =>
          rw [fetchAttempts_eq_transport_err primary jina attempt f le c m e2 hp hj] at hres
          obtain ⟨hall, hlast⟩ := hcont e2 ⟨_, hp⟩ hres
            (fun hf0 => by
              subst hf0
              rw [fetchAttempts_zero] at hres
              exact (Except.error.injEq _ _ ▸ hres).symm)
          refine ⟨hall, hlast ?_ ?_⟩
          · intro hfpos
            obtain ⟨_, hl⟩ := ih (attempt + 1) (some e2) e hfpos hres
            have heq : attempt + 1 + f - 1 = attempt + f := by omega
            rwa [heq] at hl
          · intro hf0
            subst hf0
            rw [fetchAttempts_zero] at hres
            have hee : e = e2 := (Except.error.injEq _ _ ▸ hres).symm
            simp only [lastAttemptSpec, hp]
            rw [hj, hee]

theorem fetchAttempts_jina_indep (primary jina jina' : Nat → Except FetchErr (List Char)) :
    ∀ (fuel attempt : Nat) (le : Option FetchErr),
      (∀ k, attempt ≤ k → jina k = jina' k) →
      fetchAttempts primary jina attempt fuel le =
        fetchAttempts primary jina' attempt fuel le := by
  intro fuel
  induction fuel with
  | zero => intro attempt le _; rfl
  | succ f ih =>
    intro attempt le hjj
    have hnext : ∀ k, attempt + 1 ≤ k → jina k = jina' k := fun k hk => hjj k (by omega)
    cases hp : primary attempt with
    | ok t =>
      rw [fetchAttempts_eq_ok primary jina attempt f le t hp,
        fetchAttempts_eq_ok primary jina' attempt f le t hp]
    | error err =>
      cases err with
      | http s c m =>
        cases hb : blockedStatus s with
        | true =>
          cases hj : jina attempt with
          | ok t =>
            have hj' : jina' attempt = .ok t := by rw [← hjj attempt le_rfl]; exact hj
            rw [fetchAttempts_eq_blocked_ok primary jina attempt f le s c m t hp hb hj,
              fetchAttempts_eq_blocked_ok primary jina' attempt f le s c m t hp hb hj']
          | error e2 =>
            have hj' : jina' attempt = .error e2 := by rw [← hjj attempt le_rfl]; exact hj
            rw [fetchAttempts_eq_blocked_err primary jina attempt f le s c m e2 hp hb hj,
              fetchAttempts_eq_blocked_err primary jina' attempt f le s c m e2 hp hb hj']
            exact ih (attempt + 1) (some e2) hnext
        | false =>
          rw [fetchAttempts_eq_unblocked primary jina attempt f le s c m hp hb,
            fetchAttempts_eq_unblocked primary jina' attempt f le s c m hp hb]
          exact ih (attempt + 1) (some (.http s c m)) hnext
      | transport c m =>
        cases hj : jina attempt with
        | ok t =>
          have hj' : jina' attempt = .ok t := by rw [← hjj attempt le_rfl]; exact hj
          rw [fetchAttempts_eq_transport_ok primary jina attempt f le c m t hp hj,
            fetchAttempts_eq_transport_ok primary jina' attempt f le c m t hp hj']
        | error e2 =>
          have hj' : jina' attempt = .error e2 := by rw [← hjj attempt le_rfl]; exact hj
          rw [fetchAttempts_eq_transport_err primary jina attempt f le c m e2 hp hj,
            fetchAttempts_eq_transport_err primary jina' attempt f le c m e2 hp hj']
          exact ih (attempt + 1) (some e2) hnext

theorem subRuns_true_nil (l : List Char) (h : ∀ c ∈ l, c.isAlphanum = false) :
    subRuns true l = [] := by
  induction l with
  | nil => rfl
  | cons c cs ih =>
    simp only [subRuns, h c (List.mem_cons_self c cs), Bool.false_eq_true, if_false, if_true]
    exact ih fun c' hc' => h c' (List.mem_cons_of_mem c hc')

theorem slugify_no_alnum (nfkd : List Char → List Char) (s : List Char)
    (h : ∀ c ∈ nfkd s, c.isAlphanum = false) :
    slugify nfkd s = itemFallback := by
  have hall : ∀ c ∈ (nfkd s).filter (fun c => decide (c.toNat < 128)), c.isAlphanum = false :=
    fun c hc => h c (List.mem_of_mem_filter hc)
  simp only [slugify]
  cases hfil : (nfkd s).filter (fun c => decide (c.toNat < 128)) with
  | nil => rfl
  | cons c cs =>
    rw [hfil] at hall
    have hsub : subRuns false (c :: cs) = ['-'] := by
      simp only [subRuns, hall c (List.mem_cons_self c cs), Bool.false_eq_true, if_false]
      rw [subRuns_true_nil cs fun c' hc' => hall c' (List.mem_cons_of_mem c hc')]
    rw [hsub]
    rfl

/-! ## Claim theorems -/

/-- C6: a composed digest message longer than the transport limit is split into
ordered chunks, each of length at most the configured limit of 4000
characters, and the concatenation of the chunks in order equals the original
message. -/
theorem digest_chunking_c6 (s : List Char) (h : 4000 < s.length) :
    (∀ c ∈ digestChunks s, c.length ≤ 4000) ∧ (digestChunks s).flatten = s :=
  ⟨fun c hc => chunkAux_mem_length s.length s c hc, chunkAux_join s.length s le_rfl⟩

/-- Witness for C6 at a concrete 4001-character message. -/
theorem digest_chunking_c6_witness :
    4000 < (List.replicate 4001 'a').length ∧
      (digestChunks (List.replicate 4001 'a')).flatten = List.replicate 4001 'a' :=
  ⟨by rw [List.length_replicate]; norm_num,
    (digest_chunking_c6 (List.replicate 4001 'a')
      (by rw [List.length_replicate]; norm_num)).2⟩

/-- C7 counterexample: the claim says a chunk boundary never falls strictly
inside a per-target block when a block-boundary split keeping every chunk
within 4000 characters exists.  Here the composed message is a 10-character
header followed by a 2986-character block and a 1400-character block: the
split `[full[:2998], full[2998:]]` is block-aligned and within the limit, yet
the code's chunking cuts at position 4000, strictly inside the second block. -/
theorem block_boundary_c7_counterexample :
    (List.take 2998 (List.replicate 10 'h' ++
        joinBlocks [List.replicate 2986 'a', List.replicate 1400 'b']) ++
      List.drop 2998 (List.replicate 10 'h' ++
        joinBlocks [List.replicate 2986 'a', List.replicate 1400 'b']) =
      List.replicate 10 'h' ++
        joinBlocks [List.replicate 2986 'a', List.replicate 1400 'b']) ∧
    (List.take 2998 (List.replicate 10 'h' ++
        joinBlocks [List.replicate 2986 'a', List.replicate 1400 'b'])).length = 2998 ∧
    (List.drop 2998 (List.replicate 10 'h' ++
        joinBlocks [List.replicate 2986 'a', List.replicate 1400 'b'])).length = 1400 ∧
    cuts [List.take 2998 (List.replicate 10 'h' ++
        joinBlocks [List.replicate 2986 'a', List.replicate 1400 'b']),
      List.drop 2998 (List.replicate 10 'h' ++
        joinBlocks [List.replicate 2986 'a', List.replicate 1400 'b'])] = [2998] ∧
    ¬ midBlockCut 10 [2986, 1400] 2998 ∧
    cuts (digestChunks (List.replicate 10 'h' ++
      joinBlocks [List.replicate 2986 'a', List.replicate 1400 'b'])) = [4000] ∧
    midBlockCut 10 [2986, 1400] 4000 := by
  have hfull : (List.replicate 10 'h' ++
      joinBlocks [List.replicate 2986 'a', List.replicate 1400 'b']).length = 4398 := by
    have hj : joinBlocks [List.replicate 2986 'a', List.replicate 1400 'b'] =
        List.replicate 2986 'a' ++ '\n' :: '\n' :: List.replicate 1400 'b' := rfl
    rw [List.length_append, hj, List.length_append, List.length_cons, List.length_cons,
      List.length_replicate, List.length_replicate, List.length_replicate]
  refine ⟨List.take_append_drop _ _, ?_, ?_, ?_, ?_, ?_, ?_⟩
  · rw [List.length_take, hfull]
    omega
  · rw [List.length_drop, hfull]
  · simp only [cuts, List.length_take, hfull, List.map_nil]
    have hmin : 2998 ⊓ 4398 = 2998 := by omega
    rw [hmin]
  · intro ⟨sp, hsp, h1, h2⟩
    simp only [blockSpans, List.mem_cons, List.not_mem_nil, or_false] at hsp
    rcases hsp with rfl | rfl <;> omega
  · have hne : (List.replicate 10 'h' ++
        joinBlocks [List.replicate 2986 'a', List.replicate 1400 'b']) ≠ [] := by
      intro hc
      have h2 := congrArg List.length hc
      rw [hfull, List.length_nil] at h2
      exact absurd h2 (by norm_num)
    rw [digestChunks_cons _ hne]
    have hdroplen : (List.drop 4000 (List.replicate 10 'h' ++
        joinBlocks [List.replicate 2986 'a', List.replicate 1400 'b'])).length = 398 := by
      rw [List.length_drop, hfull]
    have hdropne : List.drop 4000 (List.replicate 10 'h' ++
        joinBlocks [List.replicate 2986 'a', List.replicate 1400 'b']) ≠ [] := by
      intro hc
      have h2 := congrArg List.length hc
      rw [hdroplen, List.length_nil] at h2
      exact absurd h2 (by norm_num)
    rw [digestChunks_cons _ hdropne]
    have hdrop2 : List.drop 4000 (List.drop 4000 (List.replicate 10 'h' ++
        joinBlocks [List.replicate 2986 'a', List.replicate 1400 'b'])) = [] := by
      apply List.drop_eq_nil_of_le
      rw [hdroplen]
      omega
    rw [hdrop2]
    have htake2 : List.take 4000 (List.drop 4000 (List.replicate 10 'h' ++
        joinBlocks [List.replicate 2986 'a', List.replicate 1400 'b'])) =
        List.drop 4000 (List.replicate 10 'h' ++
          joinBlocks [List.replicate 2986 'a', List.replicate 1400 'b']) := by
      apply List.take_of_length_le
      rw [hdroplen]
      omega
    rw [htake2]
    show cuts [_, _] = [4000]
    simp only [cuts, List.length_take, hfull, List.map_nil]
    have hmin : 4000 ⊓ 4398 = 4000 := by omega
    rw [hmin]
  · exact ⟨(2998, 4398), by simp [blockSpans], by omega, by omega⟩

/-- C7 amended: the composed message is split at fixed 4000-character offsets
regardless of block boundaries — every internal split point of the emitted
chunk list is a multiple of 4000 (and a split can land strictly inside a
block even when a block-aligned split within the limit exists, as the
counterexample shows). -/
theorem block_boundary_c7 (s : List Char) (p : Nat)
    (h : p ∈ cuts (digestChunks s)) : p % 4000 = 0 :=
  cuts_chunkAux_mod s.length s p h

/-- Witness for the amended C7 on a concrete 4001-character message whose
only split point is 4000. -/
theorem block_boundary_c7_witness :
    4000 ∈ cuts (digestChunks (List.replicate 4001 'a')) ∧ 4000 % 4000 = 0 := by
  have hne1 : List.replicate 4001 'a' ≠ [] := by
    intro hc
    have h2 := congrArg List.length hc
    rw [List.length_replicate, List.length_nil] at h2
    exact absurd h2 (by norm_num)
  have e1 : 4000 ⊓ 4001 = 4000 := by omega
  have e2 : (4001 : Nat) - 4000 = 1 := by norm_num
  have hne2 : List.replicate 1 'a' ≠ [] := by
    intro hc
    have h2 := congrArg List.length hc
    rw [List.length_replicate, List.length_nil] at h2
    exact absurd h2 (by norm_num)
  have e3 : 4000 ⊓ 1 = 1 := by omega
  have e4 : (1 : Nat) - 4000 = 0 := by norm_num
  have hchunks : digestChunks (List.replicate 4001 'a') =
      [List.replicate 4000 'a', List.replicate 1 'a'] := by
    rw [digestChunks_cons _ hne1, List.take_replicate, List.drop_replicate, e1, e2,
      digestChunks_cons _ hne2, List.take_replicate, List.drop_replicate, e3, e4,
      List.replicate_zero]
    rfl
  have hmem : 4000 ∈ cuts (digestChunks (List.replicate 4001 'a')) := by
    rw [hchunks]
    simp only [cuts, List.length_replicate, List.map_nil]
    exact List.mem_singleton.2 rfl
  exact ⟨hmem, block_boundary_c7 (List.replicate 4001 'a') 4000 hmem⟩

/-- An oracle whose every primary attempt fails with HTTP 404, a status
outside the blocked set. -/
def primary404 : Nat → Except FetchErr (List Char) :=
  fun _ => .error (.http 404 "HTTPError".toList "404 Client Error: Not Found".toList)

/-- A reader-fallback oracle that would succeed on every invocation. -/
def jinaOk : Nat → Except FetchErr (List Char) := fun _ => .ok "fallback text".toList

/-- C3 counterexample: with every attempt failing on HTTP 404 (not in the
blocked set), `fetch_page` raises after the three retries even though the
text-extraction fallback — which would succeed — was never invoked, so the
fallback tier was not exhausted.  The raised error is the raw last underlying
error, not a wrapper type. -/
theorem fetch_error_c3_counterexample :
    fetch_page primary404 jinaOk 3 =
      .error (.http 404 "HTTPError".toList "404 Client Error: Not Found".toList) := by
  rfl

/-- C3 amended: `fetch_page` fails only after all retry attempts of the chosen
client are exhausted (every attempt's primary fetch failed); the fallback tier
is consulted only on blocked-status or non-HTTP failures, so a non-blocked
HTTP failure can exhaust the budget without the fallback being tried; and the
error raised is the last underlying error itself — the final attempt's HTTP
error if no fallback ran there, otherwise that attempt's fallback error —
thereby carrying that error's class and message. -/
theorem fetch_error_c3 (primary jina : Nat → Except FetchErr (List Char))
    (retries : Nat) (e : FetchErr) (h0 : 0 < retries)
    (h : fetch_page primary jina retries = .error e) :
    (∀ k, k < retries → ∃ err, primary k = .error err) ∧
      lastAttemptSpec primary jina (retries - 1) e := by
  have hspec := fetchAttempts_error_spec primary jina retries 0 none e h0 h
  simpa using hspec

/-- Witness for the amended C3 at the concrete 404 scenario. -/
theorem fetch_error_c3_witness :
    (0 : Nat) < 3 ∧
      ((∀ k, k < 3 → ∃ err, primary404 k = .error err) ∧
        lastAttemptSpec primary404 jinaOk (3 - 1)
          (.http 404 "HTTPError".toList "404 Client Error: Not Found".toList)) :=
  ⟨by norm_num, fetch_error_c3 primary404 jinaOk 3 _ (by norm_num) rfl⟩

/-- Attempt `j` of the retry loop neither returns nor raises: the primary
fetch fails there and, whenever the fallback is triggered at that attempt
(blocked status or non-HTTP failure), the fallback fails too, so the loop
sleeps and proceeds to attempt `j + 1`. -/
def attemptContinues (primary jina : Nat → Except FetchErr (List Char)) (j : Nat) : Prop :=
  match primary j with
  | .ok _ => False
  | .error (.http s _ _) => blockedStatus s = true → ∃ e2, jina j = .error e2
  | .error (.transport _ _) => ∃ e2, jina j = .error e2

theorem attemptContinues_step (primary jina : Nat → Except FetchErr (List Char))
    (attempt f : Nat) (le : Option FetchErr)
    (h : attemptContinues primary jina attempt) :
    ∃ e2, fetchAttempts primary jina attempt (f + 1) le =
      fetchAttempts primary jina (attempt + 1) f (some e2) := by
  cases hp : primary attempt with
  | ok t => simp only [attemptContinues, hp] at h
  | error err =>
    cases err with
    | http s c m =>
      simp only [attemptContinues, hp] at h
      cases hb : blockedStatus s with
      | true =>
        obtain ⟨e2, hj⟩ := h hb
        exact ⟨e2, fetchAttempts_eq_blocked_err primary jina attempt f le s c m e2 hp hb hj⟩
      | false =>
        exact ⟨.http s c m, fetchAttempts_eq_unblocked primary jina attempt f le s c m hp hb⟩
    | transport c m =>
      simp only [attemptContinues, hp] at h
      obtain ⟨e2, hj⟩ := h
      exact ⟨e2, fetchAttempts_eq_transport_err primary jina attempt f le c m e2 hp hj⟩

theorem fetchAttempts_reach (primary jina : Nat → Except FetchErr (List Char)) :
    ∀ (k fuel attempt : Nat) (le : Option FetchErr),
      (∀ j, attempt ≤ j → j < attempt + k → attemptContinues primary jina j) →
      k < fuel →
      ∃ le2, fetchAttempts primary jina attempt fuel le =
        fetchAttempts primary jina (attempt + k) (fuel - k) le2 := by
  intro k
  induction k with
  | zero =>
    intro fuel attempt le _ _
    exact ⟨le, by simp⟩
  | succ k2 ih =>
    intro fuel attempt le hcont hk
    obtain ⟨f, rfl⟩ : ∃ f, fuel = f + 1 := ⟨fuel - 1, by omega⟩
    obtain ⟨e2, he2⟩ := attemptContinues_step primary jina attempt f le
      (hcont attempt le_rfl (by omega))
    have hcont2 : ∀ j, attempt + 1 ≤ j → j < (attempt + 1) + k2 →
        attemptContinues primary jina j :=
      fun j h1 h2 => hcont j (by omega) (by omega)
    obtain ⟨le2, hle2⟩ := ih f (attempt + 1) (some e2) hcont2 (by omega)
    refine ⟨le2, ?_⟩
    rw [he2, hle2]
    have ha : attempt + 1 + k2 = attempt + (k2 + 1) := by omega
    have hf : f - k2 = f + 1 - (k2 + 1) := by omega
    rw [ha, hf]

theorem fetchAttempts_skip_unblocked (primary jina jina' : Nat → Except FetchErr (List Char))
    (k s : Nat) (c m : List Char)
    (hagree : ∀ j, j ≠ k → jina j = jina' j)
    (hp : primary k = .error (.http s c m)) (hb : blockedStatus s = false) :
    ∀ (fuel attempt : Nat) (le : Option FetchErr), attempt ≤ k →
      (∀ j, attempt ≤ j → j < k → attemptContinues primary jina j) →
      fetchAttempts primary jina attempt fuel le =
        fetchAttempts primary jina' attempt fuel le := by
  intro fuel
  induction fuel with
  | zero => intro attempt le _ _; rfl
  | succ f ih =>
    intro attempt le hak hcont
    by_cases hek : attempt = k
    · subst hek
      rw [fetchAttempts_eq_unblocked primary jina attempt f le s c m hp hb,
        fetchAttempts_eq_unblocked primary jina' attempt f le s c m hp hb]
      exact fetchAttempts_jina_indep primary jina jina' f (attempt + 1) _
        (fun j hj => hagree j (by omega))
    · have hlt : attempt < k := by omega
      have hc := hcont attempt le_rfl hlt
      cases hpa : primary attempt with
      | ok t => simp only [attemptContinues, hpa] at hc
      | error err =>
        cases err with
        | http s2 c2 m2 =>
          simp only [attemptContinues, hpa] at hc
          cases hb2 : blockedStatus s2 with
          | true =>
            obtain ⟨e2, hj⟩ := hc hb2
            have hj2 : jina' attempt = .error e2 := by rw [← hagree attempt hek]; exact hj
            rw [fetchAttempts_eq_blocked_err primary jina attempt f le s2 c2 m2 e2 hpa hb2 hj,
              fetchAttempts_eq_blocked_err primary jina' attempt f le s2 c2 m2 e2 hpa hb2 hj2]
            exact ih (attempt + 1) (some e2) (by omega)
              (fun j h1 h2 => hcont j (by omega) h2)
          | false =>
            rw [fetchAttempts_eq_unblocked primary jina attempt f le s2 c2 m2 hpa hb2,
              fetchAttempts_eq_unblocked primary jina' attempt f le s2 c2 m2 hpa hb2]
            exact ih (attempt + 1) (some (.http s2 c2 m2)) (by omega)
              (fun j h1 h2 => hcont j (by omega) h2)
        | transport c2 m2 =>
          simp only [attemptContinues, hpa] at hc
          obtain ⟨e2, hj⟩ := hc
          have hj2 : jina' attempt = .error e2 := by rw [← hagree attempt hek]; exact hj
          rw [fetchAttempts_eq_transport_err primary jina attempt f le c2 m2 e2 hpa hj,
            fetchAttempts_eq_transport_err primary jina' attempt f le c2 m2 e2 hpa hj2]
          exact ih (attempt + 1) (some e2) (by omega)
            (fun j h1 h2 => hcont j (by omega) h2)

/-- C5: for every attempt `k` the retry loop actually reaches (all earlier
attempts failed without returning), part one — an HTTP failure at attempt `k`
with a blocked status escalates immediately to the fallback, and a fallback
success is returned immediately, short-circuiting the remaining retries; part
two — the same for any non-HTTP (transport) failure at attempt `k`; part
three — an HTTP failure at attempt `k` with a non-blocked status does not
trigger the fallback: the run proceeds to backoff and retry (the rest of the
retry loop from attempt `k + 1`, carrying that HTTP error as `last_err`), and
the result does not depend on what the fallback would have returned at
attempt `k`. -/
theorem fetch_fallback_c5 (primary jina jina' : Nat → Except FetchErr (List Char))
    (r k : Nat) (hk : k < r)
    (hreach : ∀ j, j < k → attemptContinues primary jina j) :
    (∀ s c m t, primary k = .error (.http s c m) → blockedStatus s = true →
      jina k = .ok t → fetch_page primary jina r = .ok t) ∧
    (∀ c m t, primary k = .error (.transport c m) →
      jina k = .ok t → fetch_page primary jina r = .ok t) ∧
    (∀ s c m, primary k = .error (.http s c m) → blockedStatus s = false →
      fetch_page primary jina r =
        fetchAttempts primary jina (k + 1) (r - (k + 1)) (some (.http s c m)) ∧
      ((∀ j, j ≠ k → jina j = jina' j) →
        fetch_page primary jina r = fetch_page primary jina' r)) := by
  obtain ⟨le2, hle2⟩ := fetchAttempts_reach primary jina k r 0 none
    (fun j _ h2 => hreach j (by omega)) hk
  rw [Nat.zero_add] at hle2
  obtain ⟨g, hg⟩ : ∃ g, r - k = g + 1 := ⟨r - k - 1, by omega⟩
  rw [hg] at hle2
  refine ⟨?_, ?_, ?_⟩
  · intro s c m t hp hb hj
    show fetchAttempts primary jina 0 r none = .ok t
    rw [hle2]
    exact fetchAttempts_eq_blocked_ok primary jina k g le2 s c m t hp hb hj
  · intro c m t hp hj
    show fetchAttempts primary jina 0 r none = .ok t
    rw [hle2]
    exact fetchAttempts_eq_transport_ok primary jina k g le2 c m t hp hj
  · intro s c m hp hb
    constructor
    · show fetchAttempts primary jina 0 r none =
        fetchAttempts primary jina (k + 1) (r - (k + 1)) (some (.http s c m))
      rw [hle2, fetchAttempts_eq_unblocked primary jina k g le2 s c m hp hb]
      have hgr : g = r - (k + 1) := by omega
      rw [hgr]
    · intro hagree
      show fetchAttempts primary jina 0 r none = fetchAttempts primary jina' 0 r none
      exact fetchAttempts_skip_unblocked primary jina jina' k s c m hagree hp hb r 0 none
        (by omega) (fun j h1 h2 => hreach j h2)

/-- An oracle failing with the non-blocked HTTP 404 on attempt 0 and with the
blocked HTTP 403 on every later attempt. -/
def primaryMixed : Nat → Except FetchErr (List Char) :=
  fun n =>
    if n = 0 then .error (.http 404 "HTTPError".toList "404 Client Error: Not Found".toList)
    else .error (.http 403 "HTTPError".toList "403 Client Error: Forbidden".toList)

/-- Witness for C5 at attempt 1 of a three-retry run: attempt 0 fails with a
non-blocked 404 (no fallback, loop continues), attempt 1 fails with a blocked
403, so the fallback runs at once and its text is returned. -/
theorem fetch_fallback_c5_witness :
    (1 : Nat) < 3 ∧ fetch_page primaryMixed jinaOk 3 = .ok "fallback text".toList := by
  have hreach : ∀ j, j < 1 → attemptContinues primaryMixed jinaOk j := by
    intro j hj
    have hj0 : j = 0 := by omega
    subst hj0
    simp only [attemptContinues, primaryMixed, if_pos rfl]
    intro hb
    exact absurd hb (by decide)
  exact ⟨by norm_num,
    (fetch_fallback_c5 primaryMixed jinaOk jinaOk 3 1 (by norm_num) hreach).1 403
      "HTTPError".toList "403 Client Error: Forbidden".toList "fallback text".toList
      rfl rfl rfl⟩

set_option maxRecDepth 100000 in
/-- C4 counterexample: at the default parameters (`max_lines = 12`,
`max_line_len = 200`), diffing the empty text against a single 201-character
line yields a preview whose only line has 202 characters — the truncated
200-character payload plus the sign marker and space — exceeding
`maxLineLength`.  (`ndiffBase` coincides with `difflib.ndiff` here because the
old side is empty: the diff is exactly one `"+ "` line.) -/
theorem diff_preview_bound_c4_counterexample :
    ((pySplitlines (diff_preview ndiffBase [] (List.replicate 201 'a') 12 200)).any
      fun l => decide (200 < l.length)) = true := by
  decide

/-- C4 amended: for `maxLineLength ≥ 1` and a diff engine emitting
newline-free lines (as `difflib.ndiff` does on `splitlines` input), the
preview has at most `max maxLines 1` lines — the fixed placeholder still
occupies one line when `maxLines = 0` — and, unless the preview is the fixed
placeholder, every output line has at most `maxLineLength + 2` characters:
the sign marker and the following space add two characters to the truncated
payload. -/
theorem diff_preview_bound_c4
    (nd : List (List Char) → List (List Char) → List (List Char))
    (old new : List Char) (maxLines maxLineLen : Nat)
    (hlen : 1 ≤ maxLineLen)
    (hnl : ∀ line ∈ nd (pySplitlines old) (pySplitlines new), '\n' ∉ line) :
    (pySplitlines (diff_preview nd old new maxLines maxLineLen)).length ≤ max maxLines 1 ∧
      (diff_preview nd old new maxLines maxLineLen = placeholderText ∨
        ∀ line ∈ pySplitlines (diff_preview nd old new maxLines maxLineLen),
          line.length ≤ maxLineLen + 2) := by
  have hP : ∀ l ∈ diffLoop maxLines maxLineLen
      (nd (pySplitlines old) (pySplitlines new)) [],
      l ≠ [] ∧ '\n' ∉ l ∧ l.length ≤ maxLineLen + 2 :=
    diffLoop_pred maxLines maxLineLen _ _ []
      (fun line hline => diffEntry_spec maxLineLen line hlen (hnl line hline))
      (by intro l hl; simp at hl)
  by_cases hout : diffLoop maxLines maxLineLen (nd (pySplitlines old) (pySplitlines new)) [] = []
  · have hph : diff_preview nd old new maxLines maxLineLen = placeholderText := by
      simp [diff_preview, hout]
    rw [hph]
    constructor
    · rw [pySplitlines_single placeholderText (by decide) (by decide)]
      exact le_max_right _ _
    · exact Or.inl rfl
  · have heq : diff_preview nd old new maxLines maxLineLen =
        joinNL (diffLoop maxLines maxLineLen (nd (pySplitlines old) (pySplitlines new)) []) := by
      simp [diff_preview, hout]
    have hsplit : pySplitlines (joinNL (diffLoop maxLines maxLineLen
        (nd (pySplitlines old) (pySplitlines new)) [])) =
        diffLoop maxLines maxLineLen (nd (pySplitlines old) (pySplitlines new)) [] :=
      pySplitlines_joinNL _ (fun l hl => ⟨(hP l hl).2.1, (hP l hl).1⟩) hout
    rw [heq, hsplit]
    constructor
    · simpa using diffLoop_length maxLines maxLineLen
        (nd (pySplitlines old) (pySplitlines new)) []
    · exact Or.inr fun line hline => (hP line hline).2.2

/-- Witness for the amended C4 at a small concrete diff. -/
theorem diff_preview_bound_c4_witness :
    (1 ≤ 200 ∧ ∀ line ∈ ndiffBase (pySplitlines []) (pySplitlines ['a']), '\n' ∉ line) ∧
      ((pySplitlines (diff_preview ndiffBase [] ['a'] 12 200)).length ≤ max 12 1 ∧
        (diff_preview ndiffBase [] ['a'] 12 200 = placeholderText ∨
          ∀ line ∈ pySplitlines (diff_preview ndiffBase [] ['a'] 12 200),
            line.length ≤ 200 + 2)) :=
  ⟨⟨by norm_num, by decide⟩,
    diff_preview_bound_c4 ndiffBase [] ['a'] 12 200 (by norm_num) (by decide)⟩

/-- C8: the diff summarizer never returns an empty string — and whenever no
inserted or deleted line survives the filtering and the cap, it returns the
fixed non-empty placeholder. -/
theorem diff_preview_nonempty_c8
    (nd : List (List Char) → List (List Char) → List (List Char))
    (old new : List Char) (maxLines maxLineLen : Nat) :
    diff_preview nd old new maxLines maxLineLen ≠ [] ∧
      (diffLoop maxLines maxLineLen (nd (pySplitlines old) (pySplitlines new)) [] = [] →
        diff_preview nd old new maxLines maxLineLen = placeholderText) := by
  have hP : ∀ l ∈ diffLoop maxLines maxLineLen
      (nd (pySplitlines old) (pySplitlines new)) [], l ≠ [] :=
    diffLoop_pred maxLines maxLineLen _ _ []
      (fun line _ => diffEntry_ne_nil maxLineLen line)
      (by intro l hl; simp at hl)
  by_cases hout : diffLoop maxLines maxLineLen (nd (pySplitlines old) (pySplitlines new)) [] = []
  · constructor
    · have hph : diff_preview nd old new maxLines maxLineLen = placeholderText := by
        simp [diff_preview, hout]
      rw [hph]
      decide
    · intro _
      simp [diff_preview, hout]
  · constructor
    · have heq : diff_preview nd old new maxLines maxLineLen =
          joinNL (diffLoop maxLines maxLineLen
            (nd (pySplitlines old) (pySplitlines new)) []) := by
        simp [diff_preview, hout]
      rw [heq]
      exact joinNL_ne_nil _ hP hout
    · intro hc
      exact absurd hc hout

/-- Witness for C8: two identical (empty) texts produce an empty diff, and the
preview is exactly the placeholder. -/
theorem diff_preview_nonempty_c8_witness :
    diff_preview ndiffBase [] [] 12 200 = placeholderText :=
  (diff_preview_nonempty_c8 ndiffBase [] [] 12 200).2 rfl

/-- C2: for a target with a successful fetch, the loop body emits a change
block and overwrites the state (fingerprint entry and content file) exactly
when the stored fingerprint for the target's URL differs from the digest of
the fetched content under exact comparison; when the two digests are equal it
leaves the state untouched and emits nothing; and it always reports a change
when no prior fingerprint exists for the URL. -/
theorem change_detection_c2
    (nd : List (List Char) → List (List Char) → List (List Char))
    (fetch : List Char → Option (List Char) → Except FetchErr (List Char))
    (hash nfkd : List Char → List Char) (st : RunState) (item : ConfigItem)
    (url content : List Char)
    (hurl : item.url = some url)
    (hfetch : fetch url item.selector = .ok content) :
    (lookupA st.hashes url ≠ some (hash content) →
      processItem nd fetch hash nfkd st item =
        .ok ⟨insertA st.hashes url (hash content),
             insertA st.files (slugify nfkd (itemName item)) content,
             st.blocks ++ [changeBlock (itemName item)
               (diff_preview nd ((lookupA st.files (slugify nfkd (itemName item))).getD [])
                 content 12 200) url]⟩) ∧
    (lookupA st.hashes url = some (hash content) →
      processItem nd fetch hash nfkd st item = .ok st) ∧
    (lookupA st.hashes url = none →
      processItem nd fetch hash nfkd st item =
        .ok ⟨insertA st.hashes url (hash content),
             insertA st.files (slugify nfkd (itemName item)) content,
             st.blocks ++ [changeBlock (itemName item)
               (diff_preview nd ((lookupA st.files (slugify nfkd (itemName item))).getD [])
                 content 12 200) url]⟩) := by
  have hchange : lookupA st.hashes url ≠ some (hash content) →
      processItem nd fetch hash nfkd st item =
        .ok ⟨insertA st.hashes url (hash content),
             insertA st.files (slugify nfkd (itemName item)) content,
             st.blocks ++ [changeBlock (itemName item)
               (diff_preview nd ((lookupA st.files (slugify nfkd (itemName item))).getD [])
                 content 12 200) url]⟩ := by
    intro hne
    simp [processItem, hurl, hfetch, hne]
  refine ⟨hchange, ?_, fun hnone => hchange (by simp [hnone])⟩
  intro heq
  simp [processItem, hurl, hfetch, heq]

/-- A fetch oracle that always succeeds with the one-character text `"x"`. -/
def fetchAlwaysX : List Char → Option (List Char) → Except FetchErr (List Char) :=
  fun _ _ => .ok ['x']

/-- A config item named `"A"` pointing at URL `"u"` without a selector. -/
def itemAu : ConfigItem := ⟨some ['A'], some ['u'], none⟩

/-- Witness for C2: with no prior fingerprint, processing the target stores
the new fingerprint and content and emits a change block. -/
theorem change_detection_c2_witness :
    processItem ndiffBase fetchAlwaysX id id ⟨[], [], []⟩ itemAu =
      .ok ⟨insertA [] ['u'] (id ['x']),
           insertA [] (slugify id (itemName itemAu)) ['x'],
           [] ++ [changeBlock (itemName itemAu)
             (diff_preview ndiffBase ((lookupA [] (slugify id (itemName itemAu))).getD [])
               ['x'] 12 200) ['u']]⟩ :=
  (change_detection_c2 ndiffBase fetchAlwaysX id id ⟨[], [], []⟩ itemAu ['u'] ['x']
    rfl rfl).1 (by decide)

/-- C1: a retrieval failure never touches the state — the loop body returns
the state with only an error block appended, and the run continues; and in a
two-target run where target A's retrieval fails while target B succeeds with
a change, the saved fingerprint mapping keeps A's prior entry (if any)
unchanged, records B's new fingerprint, leaves A's content snapshot file
untouched, and the digest holds A's error block followed by B's change
block. -/
theorem failure_isolation_c1 :
    (∀ (nd : List (List Char) → List (List Char) → List (List Char))
        (fetch : List Char → Option (List Char) → Except FetchErr (List Char))
        (hash nfkd : List Char → List Char) (st : RunState) (item : ConfigItem)
        (url : List Char) (e : FetchErr),
      item.url = some url → fetch url item.selector = .error e →
      processItem nd fetch hash nfkd st item =
        .ok ⟨st.hashes, st.files, st.blocks ++ [errBlock (itemName item) e]⟩) ∧
    (∀ (nd : List (List Char) → List (List Char) → List (List Char))
        (fetch : List Char → Option (List Char) → Except FetchErr (List Char))
        (hash nfkd : List Char → List Char) (ts : List Char) (tA tB : ConfigItem)
        (urlA urlB cB : List Char) (e : FetchErr)
        (h0 f0 : List (List Char × List Char)),
      tA.url = some urlA → tB.url = some urlB →
      fetch urlA tA.selector = .error e → fetch urlB tB.selector = .ok cB →
      urlA ≠ urlB →
      slugify nfkd (itemName tA) ≠ slugify nfkd (itemName tB) →
      lookupA h0 urlB ≠ some (hash cB) →
      ∃ res, mainRun nd fetch hash nfkd ts [tA, tB] h0 f0 = .ok res ∧
        lookupA res.savedHashes urlA = lookupA h0 urlA ∧
        lookupA res.savedHashes urlB = some (hash cB) ∧
        lookupA res.files (slugify nfkd (itemName tA)) =
          lookupA f0 (slugify nfkd (itemName tA)) ∧
        res.blocks = [errBlock (itemName tA) e,
          changeBlock (itemName tB)
            (diff_preview nd ((lookupA f0 (slugify nfkd (itemName tB))).getD []) cB 12 200)
            urlB]) := by
  constructor
  · intro nd fetch hash nfkd st item url e hurl hfetch
    simp [processItem, hurl, hfetch]
  · intro nd fetch hash nfkd ts tA tB urlA urlB cB e h0 f0 hA hB hfA hfB hne hslug hchange
    have s1 : processItem nd fetch hash nfkd ⟨h0, f0, []⟩ tA =
        .ok ⟨h0, f0, [errBlock (itemName tA) e]⟩ := by
      simp [processItem, hA, hfA]
    have s2 : processItem nd fetch hash nfkd ⟨h0, f0, [errBlock (itemName tA) e]⟩ tB =
        .ok ⟨insertA h0 urlB (hash cB),
             insertA f0 (slugify nfkd (itemName tB)) cB,
             [errBlock (itemName tA) e,
              changeBlock (itemName tB)
                (diff_preview nd ((lookupA f0 (slugify nfkd (itemName tB))).getD []) cB 12 200)
                urlB]⟩ := by
      simp [processItem, hB, hfB, hchange]
    refine ⟨⟨insertA h0 urlB (hash cB),
        insertA f0 (slugify nfkd (itemName tB)) cB,
        [errBlock (itemName tA) e,
         changeBlock (itemName tB)
           (diff_preview nd ((lookupA f0 (slugify nfkd (itemName tB))).getD []) cB 12 200)
           urlB],
        digestChunks (headerText ts ++ joinBlocks
          [errBlock (itemName tA) e,
           changeBlock (itemName tB)
             (diff_preview nd ((lookupA f0 (slugify nfkd (itemName tB))).getD []) cB 12 200)
             urlB])⟩, ?_, ?_, ?_, ?_, rfl⟩
    · simp [mainRun, mainLoop, s1, s2]
    · exact lookupA_insertA_ne h0 urlB urlA (hash cB) hne
    · exact lookupA_insertA_self h0 urlB (hash cB)
    · exact lookupA_insertA_ne f0 (slugify nfkd (itemName tB))
        (slugify nfkd (itemName tA)) cB hslug

/-- A fetch oracle failing on URL `"a"` with a transport error and succeeding
with text `"x"` elsewhere. -/
def fetchFailA : List Char → Option (List Char) → Except FetchErr (List Char) :=
  fun u _ =>
    if u = ['a'] then .error (.transport "ConnectionError".toList "boom".toList)
    else .ok ['x']

/-- Witness for C1: target `"A"` (URL `"a"`, prior fingerprint `"z"`, prior
snapshot `"o"`) fails; target `"B"` (URL `"b"`) succeeds with fresh content. -/
theorem failure_isolation_c1_witness :
    ∃ res, mainRun ndiffBase fetchFailA id id ['T']
        [⟨some ['A'], some ['a'], none⟩, ⟨some ['B'], some ['b'], none⟩]
        [(['a'], ['z'])] [(['a'], ['o'])] = .ok res ∧
      lookupA res.savedHashes ['a'] = lookupA [(['a'], ['z'])] ['a'] ∧
      lookupA res.savedHashes ['b'] = some (id ['x']) ∧
      lookupA res.files (slugify id (itemName ⟨some ['A'], some ['a'], none⟩)) =
        lookupA [(['a'], ['o'])] (slugify id (itemName ⟨some ['A'], some ['a'], none⟩)) ∧
      res.blocks = [errBlock (itemName ⟨some ['A'], some ['a'], none⟩)
          (.transport "ConnectionError".toList "boom".toList),
        changeBlock (itemName ⟨some ['B'], some ['b'], none⟩)
          (diff_preview ndiffBase
            ((lookupA [(['a'], ['o'])]
              (slugify id (itemName ⟨some ['B'], some ['b'], none⟩))).getD [])
            ['x'] 12 200)
          ['b']] :=
  failure_isolation_c1.2 ndiffBase fetchFailA id id ['T']
    ⟨some ['A'], some ['a'], none⟩ ⟨some ['B'], some ['b'], none⟩
    ['a'] ['b'] ['x'] (.transport "ConnectionError".toList "boom".toList)
    [(['a'], ['z'])] [(['a'], ['o'])]
    rfl rfl rfl rfl (by decide) (by decide) (by decide)

/-- C9: a display name whose NFKD folding contains no ASCII alphanumeric
character slugifies to the constant `"item"`; consequently, in a run over two
distinct targets with such names, both are keyed to the same snapshot file
`item.txt`, and the second target's diff preview is computed against the
first target's just-stored content rather than against the second target's
own history. -/
theorem slug_collision_c9 :
    (∀ (nfkd : List Char → List Char) (s : List Char),
      (∀ c ∈ nfkd s, c.isAlphanum = false) → slugify nfkd s = itemFallback) ∧
    (∀ (nd : List (List Char) → List (List Char) → List (List Char))
        (fetch : List Char → Option (List Char) → Except FetchErr (List Char))
        (hash nfkd : List Char → List Char) (ts : List Char) (t1 t2 : ConfigItem)
        (url1 url2 c1 c2 : List Char) (h0 f0 : List (List Char × List Char)),
      (∀ c ∈ nfkd (itemName t1), c.isAlphanum = false) →
      (∀ c ∈ nfkd (itemName t2), c.isAlphanum = false) →
      t1.url = some url1 → t2.url = some url2 →
      fetch url1 t1.selector = .ok c1 → fetch url2 t2.selector = .ok c2 →
      url1 ≠ url2 →
      lookupA h0 url1 = none → lookupA h0 url2 = none →
      lookupA f0 itemFallback = none →
      ∃ res, mainRun nd fetch hash nfkd ts [t1, t2] h0 f0 = .ok res ∧
        res.blocks = [changeBlock (itemName t1) (diff_preview nd [] c1 12 200) url1,
          changeBlock (itemName t2) (diff_preview nd c1 c2 12 200) url2] ∧
        lookupA res.files itemFallback = some c2) := by
  constructor
  · exact slugify_no_alnum
  · intro nd fetch hash nfkd ts t1 t2 url1 url2 c1 c2 h0 f0
      hn1 hn2 ht1 ht2 hf1 hf2 hne hh1 hh2 hf0
    have slug1 := slugify_no_alnum nfkd (itemName t1) hn1
    have slug2 := slugify_no_alnum nfkd (itemName t2) hn2
    have s1 : processItem nd fetch hash nfkd ⟨h0, f0, []⟩ t1 =
        .ok ⟨insertA h0 url1 (hash c1), insertA f0 itemFallback c1,
             [changeBlock (itemName t1) (diff_preview nd [] c1 12 200) url1]⟩ := by
      simp [processItem, ht1, hf1, slug1, hh1, hf0]
    have hlook2 : lookupA (insertA h0 url1 (hash c1)) url2 = none := by
      rw [lookupA_insertA_ne h0 url1 url2 (hash c1) (Ne.symm hne)]
      exact hh2
    have hfile2 : lookupA (insertA f0 itemFallback c1) itemFallback = some c1 :=
      lookupA_insertA_self f0 itemFallback c1
    have s2 : processItem nd fetch hash nfkd
        ⟨insertA h0 url1 (hash c1), insertA f0 itemFallback c1,
         [changeBlock (itemName t1) (diff_preview nd [] c1 12 200) url1]⟩ t2 =
        .ok ⟨insertA (insertA h0 url1 (hash c1)) url2 (hash c2),
             insertA (insertA f0 itemFallback c1) itemFallback c2,
             [changeBlock (itemName t1) (diff_preview nd [] c1 12 200) url1,
              changeBlock (itemName t2) (diff_preview nd c1 c2 12 200) url2]⟩ := by
      simp [processItem, ht2, hf2, slug2, hlook2, hfile2]
    refine ⟨⟨insertA (insertA h0 url1 (hash c1)) url2 (hash c2),
        insertA (insertA f0 itemFallback c1) itemFallback c2,
        [changeBlock (itemName t1) (diff_preview nd [] c1 12 200) url1,
         changeBlock (itemName t2) (diff_preview nd c1 c2 12 200) url2],
        digestChunks (headerText ts ++ joinBlocks
          [changeBlock (itemName t1) (diff_preview nd [] c1 12 200) url1,
           changeBlock (itemName t2) (diff_preview nd c1 c2 12 200) url2])⟩,
      ?_, rfl, ?_⟩
    · simp [mainRun, mainLoop, s1, s2]
    · exact lookupA_insertA_self _ _ _

/-- A fetch oracle for the C9 witness: text `"1"` at URL `"u1"`, text `"2"`
elsewhere. -/
def fetchC9 : List Char → Option (List Char) → Except FetchErr (List Char) :=
  fun u _ => if u = ['u', '1'] then .ok ['1'] else .ok ['2']

/-- Witness for C9 with two purely Cyrillic display names (both NFKD-stable),
which slugify to the shared key `"item"`. -/
theorem slug_collision_c9_witness :
    ∃ res, mainRun ndiffBase fetchC9 id id ['T']
        [⟨some "Озон".toList, some ['u', '1'], none⟩,
         ⟨some "Вб".toList, some ['u', '2'], none⟩] [] [] = .ok res ∧
      res.blocks = [changeBlock (itemName ⟨some "Озон".toList, some ['u', '1'], none⟩)
          (diff_preview ndiffBase [] ['1'] 12 200) ['u', '1'],
        changeBlock (itemName ⟨some "Вб".toList, some ['u', '2'], none⟩)
          (diff_preview ndiffBase ['1'] ['2'] 12 200) ['u', '2']] ∧
      lookupA res.files itemFallback = some ['2'] :=
  slug_collision_c9.2 ndiffBase fetchC9 id id ['T']
    ⟨some "Озон".toList, some ['u', '1'], none⟩
    ⟨some "Вб".toList, some ['u', '2'], none⟩
    ['u', '1'] ['u', '2'] ['1'] ['2'] [] []
    (by decide) (by decide) rfl rfl rfl rfl (by decide) rfl rfl rfl

/-- A fetch oracle failing on URL `"u"` with a transport error and succeeding
with text `"x"` elsewhere (used to contrast isolation of retrieval failures). -/
def fetchFailU : List Char → Option (List Char) → Except FetchErr (List Char) :=
  fun u _ =>
    if u = ['u'] then .error (.transport "ConnectionError".toList "boom".toList)
    else .ok ['x']

set_option maxRecDepth 100000 in
/-- C10: a configuration entry without a `"url"` field makes the run abort
with the uncaught `KeyError` from `item["url"]`, raised before the per-target
`try` — the model's run result is the bare error: no error block for that
target, no processing of the remaining target, no saved state, and no digest.
By contrast (second conjunct), a retrieval failure on the first target is
isolated: the run completes and still produces two blocks — the failure block
and the next target's change block. -/
theorem missing_url_aborts_c10 :
    mainRun ndiffBase fetchAlwaysX id id ['T']
      [itemAu, ⟨some ['B'], none, none⟩, ⟨some ['C'], some ['w'], none⟩] [] [] =
      .error RunError.keyError ∧
    (mainRun ndiffBase fetchFailU id id ['T']
      [itemAu, ⟨some ['C'], some ['w'], none⟩] [] []).toOption.map
        (fun r => r.blocks.length) = some 2 := by
  constructor
  · rfl
  · rfl
